import Mathlib

/-!
Verification of the openapi-mcp-generator document-to-tool compiler.

The definitions below are a shallow embedding of the TypeScript sources:
  - src/parser/extract-tools.ts   (extractToolsFromApi, generateInputSchemaAndDetails,
                                   mapOpenApiSchemaToJsonSchema)
  - src/utils/code-gen.ts         (generateOperationId, titleCase)
  - src/utils/security.ts         (getEnvVarName, the generated acquireOAuth2Token and
                                   the generated security-resolution code in
                                   generateExecuteApiToolFunction)

JavaScript strings are modelled by Lean String over their character data
(ASCII-faithful).  JavaScript objects used as ordered string-keyed maps are
modelled by association lists with insert-or-overwrite-in-place semantics.
Possibly-cyclic dereferenced schema object graphs are modelled by a heap
function from node ids to node contents, and the recursive schema
translation takes an explicit recursion-depth bound (fuel); a result of
none means the recursion exceeded every bound, i.e. the real code never
returns (stack exhaustion).
-/

/-- Truthiness of an optional JavaScript string: undefined and the empty
string are falsy. -/
def truthyS : Option String → Bool
  | none => false
  | some s => s ≠ ""

/-- JavaScript a || b for two optional strings. -/
def jsOrS : Option String → Option String → Option String
  | some s, b => if s = "" then b else some s
  | none, b => b

/-- JavaScript a || b where the fallback is a plain string. -/
def jsOrSVal : Option String → String → String
  | some s, b => if s = "" then b else s
  | none, b => b

/-- Decimal digit character for a value below ten. -/
def digitChar (n : Nat) : Char :=
  if n = 0 then '0' else if n = 1 then '1' else if n = 2 then '2'
  else if n = 3 then '3' else if n = 4 then '4' else if n = 5 then '5'
  else if n = 6 then '6' else if n = 7 then '7' else if n = 8 then '8' else '9'

/-- Numeric value of a decimal digit character. -/
def digitVal (c : Char) : Nat :=
  if c = '0' then 0 else if c = '1' then 1 else if c = '2' then 2
  else if c = '3' then 3 else if c = '4' then 4 else if c = '5' then 5
  else if c = '6' then 6 else if c = '7' then 7 else if c = '8' then 8 else 9

/-- Decimal rendering of a natural number (digit list), with a structural
fuel so the definition reduces in the kernel. -/
def natToDecAux : Nat → Nat → List Char
  | 0, _ => []
  | fuel + 1, n =>
    if n < 10 then [digitChar n]
    else natToDecAux fuel (n / 10) ++ [digitChar (n % 10)]

/-- Decimal rendering of a natural number, as JavaScript template
interpolation of a nonnegative integer renders it. -/
def natToDec (n : Nat) : String := String.mk (natToDecAux (n + 1) n)

/-- Value of a decimal digit string. -/
def decVal (l : List Char) : Nat := l.foldl (fun acc c => 10 * acc + digitVal c) 0

theorem digitVal_digitChar {n : Nat} (h : n < 10) : digitVal (digitChar n) = n := by
  interval_cases n <;> rfl

theorem decVal_append_digit (l : List Char) (c : Char) :
    decVal (l ++ [c]) = 10 * decVal l + digitVal c := by
  unfold decVal
  rw [List.foldl_append]
  rfl

theorem decVal_foldl_init (l : List Char) :
    ∀ a, l.foldl (fun acc c => 10 * acc + digitVal c) a =
      a * 10 ^ l.length + decVal l := by
  induction l with
  | nil => intro a; simp [decVal]
  | cons c t ih =>
    intro a
    show t.foldl _ (10 * a + digitVal c) = _
    rw [ih (10 * a + digitVal c)]
    have h2 : decVal (c :: t) = (10 * 0 + digitVal c) * 10 ^ t.length + decVal t := by
      show t.foldl _ (10 * 0 + digitVal c) = _
      rw [ih (10 * 0 + digitVal c)]
    rw [h2]
    ring_nf
    simp [List.length_cons, pow_succ]
    ring

theorem decVal_natToDecAux {fuel n : Nat} (h : n < fuel) :
    decVal (natToDecAux fuel n) = n := by
  induction fuel generalizing n with
  | zero => omega
  | succ fuel ih =>
    unfold natToDecAux
    by_cases h10 : n < 10
    · simp only [if_pos h10]
      show 10 * 0 + digitVal (digitChar n) = n
      rw [digitVal_digitChar h10]
      omega
    · simp only [if_neg h10]
      rw [decVal_append_digit, ih (by omega), digitVal_digitChar (by omega)]
      omega

theorem natToDec_injective : Function.Injective natToDec := by
  intro a b hab
  have hdata : natToDecAux (a + 1) a = natToDecAux (b + 1) b :=
    congrArg String.data hab
  have ha := @decVal_natToDecAux (a + 1) a (by omega)
  have hb := @decVal_natToDecAux (b + 1) b (by omega)
  rw [← ha, ← hb, hdata]

/-! ## Schema object graph and translation (src/parser/extract-tools.ts, mapOpenApiSchemaToJsonSchema)

A dereferenced OpenAPI document is an in-memory object graph that may be
cyclic.  Schema nodes are stored in a heap addressed by natural-number
identities; edges (properties values and items) are node identities. -/

/-- The JSON-Schema type field: absent, a single name, or an array of names. -/
inductive TypeField where
  | undef : TypeField
  | single (s : String) : TypeField
  | multi (l : List String) : TypeField
deriving DecidableEq, Repr

/-- One node of the dereferenced OpenAPI schema object graph: an unresolved
reference object, a boolean schema, or a plain schema object with the fields
the translator inspects. -/
inductive OaNode where
  | ref (target : String) : OaNode
  | bool (b : Bool) : OaNode
  | node (typ : TypeField) (nullable : Bool)
      (properties : Option (List (String × Nat))) (items : Option Nat)
      (descr : Option String) : OaNode

/-- Result of mapOpenApiSchemaToJsonSchema.  A raw leaf is a child pointer
that was copied by the object spread without being translated (the code
only rewrites properties when the resulting type is exactly the string
object, and items when it is exactly the string array). -/
inductive JsonOut where
  | jbool (b : Bool) : JsonOut
  | raw (id : Nat) : JsonOut
  | obj (typ : TypeField) (properties : Option (List (String × JsonOut)))
      (items : Option JsonOut) (descr : Option String) : JsonOut

/-- Collect an association list of optional translation results, failing if
any child failed (a child that never returns never lets the loop finish). -/
def seqOpt : List (String × Option JsonOut) → Option (List (String × JsonOut))
  | [] => some []
  | (_, none) :: _ => none
  | (k, some v) :: rest => (seqOpt rest).map (fun t => (k, v) :: t)

/-- Shallow embedding of mapOpenApiSchemaToJsonSchema.  The fuel argument
bounds the recursion depth; none means no bound suffices, i.e. the source
function never returns on this input. -/
def mapOpenApiSchemaToJsonSchema (H : Nat → OaNode) : Nat → Nat → Option JsonOut
  | 0, _ => none
  | fuel + 1, id =>
    match H id with
    | OaNode.ref _ => some (JsonOut.obj (TypeField.single "object") none none none)
    | OaNode.bool b => some (JsonOut.jbool b)
    | OaNode.node typ nullable properties items descr =>
      let typ1 := if typ = TypeField.single "integer" then TypeField.single "number" else typ
      let typ2 :=
        if nullable then
          match typ1 with
          | TypeField.multi l =>
            TypeField.multi (if "null" ∈ l then l else l ++ ["null"])
          | TypeField.single s => TypeField.multi [s, "null"]
          | TypeField.undef => TypeField.single "null"
        else typ1
      let propsOut : Option (Option (List (String × JsonOut))) :=
        match properties with
        | none => some none
        | some l =>
          if typ2 = TypeField.single "object" then
            (seqOpt (l.map (fun kp => (kp.1,
              match H kp.2 with
              | OaNode.bool b => some (JsonOut.jbool b)
              | _ => mapOpenApiSchemaToJsonSchema H fuel kp.2)))).map some
          else some (some (l.map (fun kp => (kp.1, JsonOut.raw kp.2))))
      let itemsOut : Option (Option JsonOut) :=
        match items with
        | none => some none
        | some iid =>
          if typ2 = TypeField.single "array" then
            match H iid with
            | OaNode.bool _ => some (some (JsonOut.raw iid))
            | _ => (mapOpenApiSchemaToJsonSchema H fuel iid).map some
          else some (some (JsonOut.raw iid))
      match propsOut, itemsOut with
      | some ps, some its => some (JsonOut.obj typ2 ps its descr)
      | _, _ => none

/-- A heap whose node 0 is an object schema holding itself as the property
named self: the dereferenced form of a directly self-referential schema. -/
def selfLoopHeap : Nat → OaNode :=
  fun _ => OaNode.node (TypeField.single "object") false (some [("self", 0)]) none none

example : mapOpenApiSchemaToJsonSchema selfLoopHeap 3 0 = none := rfl
example :
    mapOpenApiSchemaToJsonSchema (fun _ => OaNode.node (TypeField.single "string") true none none none) 1 0 =
      some (JsonOut.obj (TypeField.multi ["string", "null"]) none none none) := rfl

/-! ## Tool naming (src/parser/extract-tools.ts and src/utils/code-gen.ts)

String primitives are re-implemented over character lists so that every
definition reduces inside the kernel; they follow the ASCII behaviour of
the JavaScript string methods used by the source. -/

/-- ASCII lower-casing of a string (JavaScript toLowerCase). -/
def strLower (s : String) : String := String.mk (s.data.map Char.toLower)

/-- ASCII upper-casing of a string (JavaScript toUpperCase). -/
def strUpper (s : String) : String := String.mk (s.data.map Char.toUpper)

/-- Sanitization applied to a tool base name: dots replaced by underscore,
every character outside the case-insensitive class a-z, 0-9, underscore and
hyphen replaced by underscore, then the whole string lower-cased. -/
def sanitizeToolName (s : String) : String :=
  String.mk
    (((s.data.map fun c => if c = '.' then '_' else c).map fun c =>
        if c.isAlpha ∨ c.isDigit ∨ c = '_' ∨ c = '-' then c else '_').map
      Char.toLower)

example : sanitizeToolName "getUser.ByID" = "getuser_byid" := by decide
example : sanitizeToolName "a b/c" = "a_b_c" := by decide

/-- Global replacement of a separator (hyphen, underscore or slash) followed
by any character with that character upper-cased; the scan resumes after
each match, and the any-character class does not match line terminators. -/
def titleCaseSeps : List Char → List Char
  | [] => []
  | [c] => [c]
  | c :: d :: rest2 =>
    if c = '-' ∨ c = '_' ∨ c = '/' then
      if d = '\n' ∨ d = '\r' then c :: titleCaseSeps (d :: rest2)
      else d.toUpper :: titleCaseSeps rest2
    else c :: titleCaseSeps (d :: rest2)

/-- Embedding of titleCase from src/utils/code-gen.ts: lower-case the string,
collapse separator-letter pairs, strip one leading opening brace and one
trailing closing brace, and capitalize the first character. -/
def titleCase (s : String) : String :=
  let replaced := titleCaseSeps (s.data.map Char.toLower)
  let noLead := match replaced with
    | '{' :: t => t
    | l => l
  let noTrail := if noLead.getLast? = some '}' then noLead.dropLast else noLead
  String.mk (match noTrail with
    | [] => []
    | c :: t => c.toUpper :: t)

example : titleCase "{user_id}" = "UserId" := by decide
example : titleCase "store" = "Store" := by decide

/-- Split a character list on a separator character (JavaScript split). -/
def splitOnChar (sep : Char) : List Char → List (List Char)
  | [] => [[]]
  | c :: rest =>
    let r := splitOnChar sep rest
    if c = sep then [] :: r
    else match r with
      | [] => [[c]]
      | h :: t => (c :: h) :: t

/-- Whether a character list has the given first character. -/
def headIs (c : Char) : List Char → Bool
  | [] => false
  | d :: _ => d = c

/-- Append the title-cased path parts to the method name, treating only a
trailing parameter segment specially (embedding of the forEach loop in
generateOperationId). -/
def opIdAppendParts (total : Nat) : Nat → List (List Char) → String → String
  | _, [], acc => acc
  | i, part :: rest, acc =>
    let partS := String.mk part
    let acc2 :=
      if headIs '{' part ∧ part.getLast? = some '}' then
        if i = total - 1 then acc ++ "By" ++ titleCase partS else acc
      else acc ++ titleCase partS
    opIdAppendParts total (i + 1) rest acc2

/-- Embedding of generateOperationId from src/utils/code-gen.ts. -/
def generateOperationId (method path : String) : String :=
  let parts := (splitOnChar '/' path.data).filter (· ≠ [])
  let start := strLower method
  let name := opIdAppendParts parts.length 0 parts start
  let name2 := if name = strLower method then name ++ "Root" else name
  String.mk (match name2.data with
    | [] => []
    | c :: t => c.toUpper :: t)

example : generateOperationId "get" "/users/{userId}/posts" = "GetUsersPosts" := by decide
example : generateOperationId "get" "/users/{userId}" = "GetUsersByUserid" := by decide
example : generateOperationId "get" "/users/{user_id}" = "GetUsersByUserId" := by decide
example : generateOperationId "get" "/" = "GetRoot" := by decide

/-- Candidate collision name: the base name, an underscore and the decimal
rendering of the counter. -/
def nameCandidate (base : String) (c : Nat) : String := base ++ "_" ++ natToDec c

/-- Embedding of the collision while-loop of extractToolsFromApi: try the
counter values in order until a candidate is not in usedNames.  The source
loop is unbounded; the fuel is always called with enough budget for a free
candidate to exist (proved below), so the fuel-exhausted fallback is
unreachable. -/
def chooseNameAux (used : List String) (base : String) : Nat → Nat → String
  | 0, counter => nameCandidate base counter
  | fuel + 1, counter =>
    if nameCandidate base counter ∈ used then
      chooseNameAux used base fuel (counter + 1)
    else nameCandidate base counter

/-- Unique-name allocation of extractToolsFromApi: keep the base name if it
is unused, otherwise append an underscore and the first free counter value,
counting from 1. -/
def chooseName (used : List String) (base : String) : String :=
  if base ∈ used then chooseNameAux used base (used.length + 1) 1 else base

example : chooseName [] "pets" = "pets" := by decide
example : chooseName ["pets"] "pets" = "pets_1" := by decide
example : chooseName ["pets", "pets_1"] "pets" = "pets_2" := by decide

theorem nameCandidate_injective (base : String) :
    Function.Injective (nameCandidate base) := by
  intro a b hab
  apply natToDec_injective
  apply String.ext
  have h1 : (base ++ "_" ++ natToDec a).data = (base ++ "_" ++ natToDec b).data :=
    congrArg String.data hab
  rw [String.data_append, String.data_append, String.data_append, String.data_append,
    List.append_assoc, List.append_assoc] at h1
  exact List.append_cancel_left (List.append_cancel_left h1)

theorem exists_fresh_candidate (used : List String) (base : String) (counter : Nat) :
    ∃ i < used.length + 1, nameCandidate base (counter + i) ∉ used := by
  by_contra hall
  push_neg at hall
  have hinj : Function.Injective fun i : Nat => nameCandidate base (counter + i) :=
    fun a b h => by
      have := nameCandidate_injective base h
      omega
  have hsub : (Finset.range (used.length + 1)).image
      (fun i => nameCandidate base (counter + i)) ⊆ used.toFinset := by
    intro x hx
    rcases Finset.mem_image.mp hx with ⟨i, hi, rfl⟩
    exact List.mem_toFinset.mpr (hall i (Finset.mem_range.mp hi))
  have hcard := Finset.card_le_card hsub
  rw [Finset.card_image_of_injective _ hinj, Finset.card_range] at hcard
  have := used.toFinset_card_le
  omega

theorem chooseNameAux_not_mem (used : List String) (base : String) :
    ∀ fuel counter, (∃ i < fuel, nameCandidate base (counter + i) ∉ used) →
      chooseNameAux used base fuel counter ∉ used := by
  intro fuel
  induction fuel with
  | zero => intro counter h; omega
  | succ fuel ih =>
    intro counter ⟨i, hi, hfree⟩
    unfold chooseNameAux
    by_cases hmem : nameCandidate base counter ∈ used
    · simp only [if_pos hmem]
      apply ih
      have hi0 : i ≠ 0 := by
        intro h0
        rw [h0, Nat.add_zero] at hfree
        exact hfree hmem
      exact ⟨i - 1, by omega, by have : counter + 1 + (i - 1) = counter + i := by omega
                                 rw [this]; exact hfree⟩
    · simp only [if_neg hmem]
      exact hmem

/-- The allocated name is never one already in usedNames. -/
theorem chooseName_not_mem (used : List String) (base : String) :
    chooseName used base ∉ used := by
  unfold chooseName
  by_cases hmem : base ∈ used
  · simp only [if_pos hmem]
    apply chooseNameAux_not_mem
    rcases exists_fresh_candidate used base 1 with ⟨i, hi, hfree⟩
    exact ⟨i, hi, hfree⟩
  · simp only [if_neg hmem]
    exact hmem

/-- The allocated name is the base name or a counter-suffixed candidate. -/
theorem chooseName_shape (used : List String) (base : String) :
    chooseName used base = base ∨ ∃ c, chooseName used base = nameCandidate base c := by
  unfold chooseName
  by_cases hmem : base ∈ used
  · simp only [if_pos hmem]
    right
    generalize used.length + 1 = fuel
    generalize 1 = counter
    induction fuel generalizing counter with
    | zero => exact ⟨counter, rfl⟩
    | succ fuel ih =>
      unfold chooseNameAux
      by_cases hm : nameCandidate base counter ∈ used
      · simp only [if_pos hm]; exact ih (counter + 1)
      · simp only [if_neg hm]; exact ⟨counter, rfl⟩
  · exact Or.inl (if_neg hmem)

/-! ## Operation extraction (src/parser/extract-tools.ts) -/

/-- Lookup in a JavaScript object modelled as an ordered association list. -/
def assocLookup {α : Type} : List (String × α) → String → Option α
  | [], _ => none
  | (k', v) :: rest, k => if k' = k then some v else assocLookup rest k

/-- Assignment obj[k] = v on a JavaScript object modelled as an ordered
association list: an existing key keeps its position and gets the new value,
a new key is appended. -/
def objInsert {α : Type} : List (String × α) → String → α → List (String × α)
  | [], k, v => [(k, v)]
  | (k', v') :: rest, k, v =>
    if k' = k then (k, v) :: rest else (k', v') :: objInsert rest k v

/-- An OpenAPI parameter object, keeping the fields the extractor reads.
The schema is a node identity in the schema heap; none models a parameter
that declares no schema. -/
structure Param where
  name : String
  inLoc : String
  required : Bool
  descr : Option String
  schema : Option Nat

/-- An OpenAPI request body object: an optional description, a required
flag, and the ordered content map from media type to optional schema node. -/
structure RequestBodyObj where
  descr : Option String
  required : Bool
  content : List (String × Option Nat)

/-- The operation-level security field: absent, JSON null, or a declared
list of security requirement objects (each an ordered mapping from scheme
name to scope list). -/
inductive SecurityDecl where
  | undef : SecurityDecl
  | null : SecurityDecl
  | decl (l : List (List (String × List String))) : SecurityDecl

/-- An OpenAPI operation object, keeping the fields the extractor reads. -/
structure Operation where
  operationId : Option String
  summary : Option String
  descr : Option String
  parameters : Option (List Param)
  requestBody : Option RequestBodyObj
  security : SecurityDecl

/-- Embedding of the securityRequirements conditional in extractToolsFromApi:
null yields the global security, a declared list (empty included) is truthy
and used as-is, and an absent field falls back to the global security. -/
def securityRequirementsOf (s : SecurityDecl) (globalSecurity : List (List (String × List String))) :
    List (List (String × List String)) :=
  match s with
  | SecurityDecl.null => globalSecurity
  | SecurityDecl.undef => globalSecurity
  | SecurityDecl.decl l => l

/-- Description of a translated schema object, if any. -/
def descrOfOut : JsonOut → Option String
  | JsonOut.obj _ _ _ d => d
  | _ => none

/-- Assign the description field of a translated schema when it is an
object (the code guards the assignment with a typeof check). -/
def withDescr : JsonOut → Option String → JsonOut
  | JsonOut.obj t p i _, d => JsonOut.obj t p i d
  | j, _ => j

/-- The forEach loop over parameters in generateInputSchemaAndDetails:
parameters without a name or without a schema are skipped; others are
translated, get the parameter description if present, are written into the
properties object, and are pushed onto required when marked required. -/
def processParams (H : Nat → OaNode) (fuel : Nat) :
    List Param → List (String × JsonOut) → List String →
      Option (List (String × JsonOut) × List String)
  | [], props, req => some (props, req)
  | param :: rest, props, req =>
    if param.name = "" ∨ param.schema = none then processParams H fuel rest props req
    else
      match param.schema with
      | none => processParams H fuel rest props req
      | some sid =>
        match mapOpenApiSchemaToJsonSchema H fuel sid with
        | none => none
        | some ps =>
          let ps2 := withDescr ps (jsOrS param.descr (descrOfOut ps))
          processParams H fuel rest (objInsert props param.name ps2)
            (if param.required then req ++ [param.name] else req)

/-- The aggregate input schema: an object schema with the collected
properties and, when nonempty, the required list. -/
structure InputSchemaOut where
  properties : List (String × JsonOut)
  required : Option (List String)

/-- Result record of generateInputSchemaAndDetails. -/
structure GenResult where
  inputSchema : InputSchemaOut
  parameters : List Param
  requestBodyContentType : Option String

/-- Embedding of generateInputSchemaAndDetails: translate every named
schema-bearing parameter into a property, then fold an optional request
body into the synthetic requestBody property, preferring the
application/json media type and falling back to the first declared media
type as an opaque string property. -/
def generateInputSchemaAndDetails (H : Nat → OaNode) (fuel : Nat) (operation : Operation) :
    Option GenResult :=
  let allParameters := operation.parameters.getD []
  match processParams H fuel allParameters [] [] with
  | none => none
  | some (props1, req1) =>
    let afterBody : Option (List (String × JsonOut) × List String × Option String) :=
      match operation.requestBody with
      | none => some (props1, req1, none)
      | some rb =>
        match assocLookup rb.content "application/json" with
        | some (some sid) =>
          match mapOpenApiSchemaToJsonSchema H fuel sid with
          | none => none
          | some bs =>
            let bs2 := withDescr bs
              (jsOrS rb.descr (jsOrS (descrOfOut bs) (some "The JSON request body.")))
            some (objInsert props1 "requestBody" bs2,
              if rb.required then req1 ++ ["requestBody"] else req1,
              some "application/json")
        | _ =>
          match rb.content.head? with
          | some (contentType, _) =>
            some (objInsert props1 "requestBody"
                (JsonOut.obj (TypeField.single "string") none none
                  (some (jsOrSVal rb.descr
                    ("Request body (content type: " ++ contentType ++ ")")))),
              if rb.required then req1 ++ ["requestBody"] else req1,
              some contentType)
          | none => some (props1, req1, none)
    match afterBody with
    | none => none
    | some (props, req, contentType) =>
      some { inputSchema := { properties := props,
                              required := if req.length > 0 then some req else none },
             parameters := allParameters,
             requestBodyContentType := contentType }

/-- An OpenAPI path item: one optional operation per HTTP method. -/
structure PathItem where
  get : Option Operation := none
  put : Option Operation := none
  post : Option Operation := none
  delete : Option Operation := none
  options : Option Operation := none
  head : Option Operation := none
  patch : Option Operation := none
  trace : Option Operation := none

/-- The operations of a path item, in the iteration order of the HTTP
methods enumeration: get, put, post, delete, options, head, patch, trace. -/
def pathItemMethods (item : PathItem) : List (String × Operation) :=
  ([("get", item.get), ("put", item.put), ("post", item.post), ("delete", item.delete),
    ("options", item.options), ("head", item.head), ("patch", item.patch),
    ("trace", item.trace)]).filterMap
    (fun mo => mo.2.map (fun op => (mo.1, op)))

/-- An OpenAPI document, keeping the fields the extractor reads. -/
structure Api where
  paths : Option (List (String × Option PathItem))
  security : Option (List (List (String × List String)))

/-- The path, method and operation triples the extraction loop visits, in
visit order: paths in declaration order, null path items skipped, methods in
enumeration order. -/
def opsOfApi (api : Api) : List (String × String × Operation) :=
  (api.paths.getD []).foldr
    (fun pr acc =>
      match pr.2 with
      | none => acc
      | some item => (pathItemMethods item).map (fun mo => (pr.1, mo.1, mo.2)) ++ acc)
    []

/-- The raw base name before sanitization: the declared operationId if
truthy, otherwise the identifier synthesized from method and path. -/
def rawBaseName (operation : Operation) (method path : String) : String :=
  match operation.operationId with
  | some oid => if oid = "" then generateOperationId method path else oid
  | none => generateOperationId method path

/-- One extracted MCP tool definition. -/
structure Tool where
  name : String
  description : String
  inputSchema : InputSchemaOut
  method : String
  pathTemplate : String
  parameters : List Param
  executionParameters : List (String × String)
  requestBodyContentType : Option String
  securityRequirements : List (List (String × List String))
  operationId : String

/-- Build the tool definition pushed for one operation, given the sanitized
base name and the collision-resolved final name. -/
def buildTool (H : Nat → OaNode) (fuel : Nat)
    (globalSecurity : List (List (String × List String)))
    (path method : String) (operation : Operation) (baseName finalToolName : String) :
    Option Tool :=
  (generateInputSchemaAndDetails H fuel operation).map fun r =>
    { name := finalToolName
      description := jsOrSVal operation.descr
        (jsOrSVal operation.summary ("Executes " ++ strUpper method ++ " " ++ path))
      inputSchema := r.inputSchema
      method := method
      pathTemplate := path
      parameters := r.parameters
      executionParameters := r.parameters.map (fun p => (p.name, p.inLoc))
      requestBodyContentType := r.requestBodyContentType
      securityRequirements := securityRequirementsOf operation.security globalSecurity
      operationId := baseName }

/-- The extraction loop over all operations, threading the set of used
names. -/
def extractAux (H : Nat → OaNode) (fuel : Nat)
    (globalSecurity : List (List (String × List String))) :
    List (String × String × Operation) → List String → Option (List Tool)
  | [], _ => some []
  | (path, method, operation) :: rest, used =>
    if rawBaseName operation method path = "" then
      extractAux H fuel globalSecurity rest used
    else
      match buildTool H fuel globalSecurity path method operation
          (sanitizeToolName (rawBaseName operation method path))
          (chooseName used (sanitizeToolName (rawBaseName operation method path))) with
      | none => none
      | some t =>
        (extractAux H fuel globalSecurity rest
            (chooseName used (sanitizeToolName (rawBaseName operation method path)) :: used)).map
          (fun tail => t :: tail)

/-- Embedding of extractToolsFromApi: global security defaults to the empty
list, an absent paths table yields no tools, and the loop of extractAux
visits every declared operation. -/
def extractToolsFromApi (H : Nat → OaNode) (fuel : Nat) (api : Api) : Option (List Tool) :=
  extractAux H fuel (api.security.getD []) (opsOfApi api) []

/-- A heap value for documents whose operations carry no schemas. -/
def emptyHeap : Nat → OaNode := fun _ => OaNode.ref "unused"

/-- An operation with only an operationId set. -/
def opWithId (oid : String) : Operation :=
  { operationId := some oid, summary := none, descr := none,
    parameters := none, requestBody := none, security := SecurityDecl.undef }

example :
    (extractToolsFromApi emptyHeap 0
        { paths := some [("/a", some { get := some (opWithId "listPets") }),
                         ("/b", some { get := some (opWithId "listpets") })],
          security := none }).map (fun ts => ts.map (fun t => t.name)) =
      some ["listpets", "listpets_1"] := rfl

/-! ## Security (src/utils/security.ts) -/

/-- The scheme-name sanitization of getEnvVarName: non-alphanumeric
characters replaced by underscore, then upper-cased. -/
def envSchemeName (schemeName : String) : String :=
  String.mk ((schemeName.data.map fun c => if c.isAlpha ∨ c.isDigit then c else '_').map
    Char.toUpper)

/-- Embedding of getEnvVarName: the credential kind, an underscore and the
sanitized upper-cased scheme name. -/
def getEnvVarName (schemeName kind : String) : String :=
  kind ++ "_" ++ envSchemeName schemeName

example : getEnvVarName "petstore_auth" "OAUTH_CLIENT_ID" = "OAUTH_CLIENT_ID_PETSTORE_AUTH" := by
  decide

/-- The environment variable name the emitted acquireOAuth2Token reads the
client id from.  In the template of generateOAuth2TokenAcquisitionCode the
interpolation getEnvVarName with first argument the literal string
schemeName runs at generation time, so the emitted name is a constant,
independent of the actual scheme. -/
def acquisitionClientIdEnvVar : String := getEnvVarName "schemeName" "OAUTH_CLIENT_ID"

/-- The constant client-secret variable name of the emitted token routine,
produced the same way. -/
def acquisitionClientSecretEnvVar : String := getEnvVarName "schemeName" "OAUTH_CLIENT_SECRET"

/-- The constant scopes variable name of the emitted token routine,
produced the same way. -/
def acquisitionScopesEnvVar : String := getEnvVarName "schemeName" "OAUTH_SCOPES"

/-- The per-scheme client-id variable name checked by the emitted
availability test in generateExecuteApiToolFunction, which interpolates the
runtime scheme name. -/
def availabilityClientIdEnvVar (schemeName : String) : String :=
  "OAUTH_CLIENT_ID_" ++ envSchemeName schemeName

/-- One OAuth2 flow object: the extractor only reads its token URL. -/
structure OAuthFlowInfo where
  tokenUrl : Option String

/-- The flows object of an OAuth2 scheme: the generated code only inspects
the client-credentials and password flows. -/
structure OAuthFlows where
  clientCredentials : Option OAuthFlowInfo
  password : Option OAuthFlowInfo

/-- A security scheme from the components table, as inspected by the
generated security-resolution code. -/
inductive SecScheme where
  | apiKey (name inLoc : String) : SecScheme
  | http (scheme : Option String) : SecScheme
  | oauth2 (flows : Option OAuthFlows) : SecScheme
  | openIdConnect : SecScheme

/-- Embedding of the per-scheme availability test inside the find callback
of the generated executeApiTool (the every over Object.entries): a scheme
missing from the table is unavailable; API keys, bearer and basic
credentials, pre-provisioned OAuth2 and OpenID tokens are presence tests on
the conventional environment variables; OAuth2 client credentials
additionally require a client-credentials or password flow. -/
def schemeAvailable (schemes : List (String × SecScheme)) (env : String → Option String)
    (schemeName : String) : Bool :=
  match assocLookup schemes schemeName with
  | none => false
  | some (SecScheme.apiKey _ _) =>
    truthyS (env ("API_KEY_" ++ envSchemeName schemeName))
  | some (SecScheme.http schemeKind) =>
    if schemeKind.map strLower = some "bearer" then
      truthyS (env ("BEARER_TOKEN_" ++ envSchemeName schemeName))
    else if schemeKind.map strLower = some "basic" then
      truthyS (env ("BASIC_USERNAME_" ++ envSchemeName schemeName)) &&
        truthyS (env ("BASIC_PASSWORD_" ++ envSchemeName schemeName))
    else false
  | some (SecScheme.oauth2 flows) =>
    if truthyS (env ("OAUTH_TOKEN_" ++ envSchemeName schemeName)) then true
    else if truthyS (env ("OAUTH_CLIENT_ID_" ++ envSchemeName schemeName)) &&
        truthyS (env ("OAUTH_CLIENT_SECRET_" ++ envSchemeName schemeName)) then
      (flows.map fun f => f.clientCredentials.isSome || f.password.isSome).getD false
    else false
  | some SecScheme.openIdConnect =>
    truthyS (env ("OPENID_TOKEN_" ++ envSchemeName schemeName))

/-- A requirement entry is satisfied when every scheme it names is
available (the AND inside one entry). -/
def entryAvailable (schemes : List (String × SecScheme)) (env : String → Option String)
    (req : List (String × List String)) : Bool :=
  req.all (fun kv => schemeAvailable schemes env kv.1)

/-- Embedding of the appliedSecurity computation: the first requirement
entry, in declared order, whose schemes are all available (the OR across
entries); undefined when none matches. -/
def appliedSecurity (schemes : List (String × SecScheme)) (env : String → Option String)
    (requirements : List (List (String × List String))) :
    Option (List (String × List String)) :=
  requirements.find? (entryAvailable schemes env)

/-- A cached OAuth2 token with its expiry instant in milliseconds. -/
structure TokenCacheEntry where
  token : String
  expiresAt : Int

/-- The JSON body of a token-endpoint response, as read by the emitted
routine. -/
structure TokenResponse where
  access_token : Option String
  expires_in : Option Int

/-- JavaScript expires_in || 3600: a missing or zero value falls back to
one hour. -/
def expiresInVal (resp : TokenResponse) : Int :=
  match resp.expires_in with
  | some v => if v = 0 then 3600 else v
  | none => 3600

/-- Result of one call of the emitted acquireOAuth2Token: the returned
token, the token cache afterwards, and whether a token-endpoint request was
issued. -/
structure AcquireResult where
  token : Option String
  cache : List (String × TokenCacheEntry)
  requested : Bool

/-- The fetch phase of the emitted acquireOAuth2Token: pick the
client-credentials token URL, falling back to the password flow, else fail
without a request; a fetch failure is caught and yields null; on success
the token is cached under the given key with expiry now plus expires-in
seconds (default 3600) minus a sixty-second margin, in milliseconds. -/
def acquireOAuth2TokenFetch (fetch : String → Option TokenResponse)
    (flows : Option OAuthFlows) (cache : List (String × TokenCacheEntry))
    (cacheKey : String) (now : Int) : AcquireResult :=
  let ccUrl := (flows.bind fun f => f.clientCredentials).bind fun fi => fi.tokenUrl
  let pwUrl := (flows.bind fun f => f.password).bind fun fi => fi.tokenUrl
  let tokenUrl : Option String :=
    if truthyS ccUrl then ccUrl else if truthyS pwUrl then pwUrl else none
  match tokenUrl with
  | none => { token := none, cache := cache, requested := false }
  | some url =>
    match fetch url with
    | none => { token := none, cache := cache, requested := true }
    | some resp =>
      if truthyS resp.access_token then
        let token := resp.access_token.getD ""
        let entry : TokenCacheEntry :=
          { token := token, expiresAt := now + expiresInVal resp * 1000 - 60000 }
        { token := some token, cache := objInsert cache cacheKey entry,
          requested := true }
      else { token := none, cache := cache, requested := true }

/-- Embedding of the emitted acquireOAuth2Token (template in
generateOAuth2TokenAcquisitionCode): read the constant-named credential
variables, missing credentials fail without a request; a cached entry for
the scheme-name-and-client-id key that has not expired is returned without
a request; otherwise the fetch phase above runs. -/
def acquireOAuth2Token (env : String → Option String)
    (fetch : String → Option TokenResponse) (schemeName : String)
    (flows : Option OAuthFlows) (cache : List (String × TokenCacheEntry))
    (now : Int) : AcquireResult :=
  if ¬ (truthyS (env acquisitionClientIdEnvVar) ∧
        truthyS (env acquisitionClientSecretEnvVar)) then
    { token := none, cache := cache, requested := false }
  else
    match assocLookup cache (schemeName ++ "_" ++ (env acquisitionClientIdEnvVar).getD "") with
    | some entry =>
      if entry.expiresAt > now then
        { token := some entry.token, cache := cache, requested := false }
      else
        acquireOAuth2TokenFetch fetch flows cache
          (schemeName ++ "_" ++ (env acquisitionClientIdEnvVar).getD "") now
    | none =>
      acquireOAuth2TokenFetch fetch flows cache
        (schemeName ++ "_" ++ (env acquisitionClientIdEnvVar).getD "") now

/-! ## Shared lemmas about the extraction loop -/

theorem natToDecAux_ne_nil (fuel n : Nat) : natToDecAux (fuel + 1) n ≠ [] := by
  unfold natToDecAux
  split
  · simp
  · simp

theorem nameCandidate_ne_base (base : String) (c : Nat) : nameCandidate base c ≠ base := by
  intro h
  have hlen := congrArg (fun s => s.data.length) h
  simp only [nameCandidate, String.data_append, List.length_append] at hlen
  have hne : (natToDec c).data.length ≠ 0 := by
    simp only [natToDec]
    exact fun hz => natToDecAux_ne_nil c c (List.length_eq_zero.mp hz)
  have : ("_" : String).data.length = 1 := rfl
  omega

theorem buildTool_eq {H : Nat → OaNode} {fuel : Nat}
    {glob : List (List (String × List String))} {path method : String}
    {op : Operation} {base fin : String} {t : Tool}
    (h : buildTool H fuel glob path method op base fin = some t) :
    t.name = fin ∧ t.operationId = base ∧
    t.securityRequirements = securityRequirementsOf op.security glob ∧
    ∃ r, generateInputSchemaAndDetails H fuel op = some r ∧
      t.parameters = r.parameters ∧
      t.executionParameters = r.parameters.map (fun p => (p.name, p.inLoc)) ∧
      t.inputSchema = r.inputSchema := by
  unfold buildTool at h
  cases hg : generateInputSchemaAndDetails H fuel op with
  | none => rw [hg] at h; simp at h
  | some r =>
    rw [hg] at h
    simp only [Option.map_some'] at h
    cases h
    exact ⟨rfl, rfl, rfl, r, rfl, rfl, rfl, rfl⟩

theorem extractAux_mem {H : Nat → OaNode} {fuel : Nat}
    {glob : List (List (String × List String))} :
    ∀ (ops : List (String × String × Operation)) (used : List String)
      (tools : List Tool), extractAux H fuel glob ops used = some tools →
      ∀ t ∈ tools, ∃ path method op usedX,
        (path, method, op) ∈ ops ∧ rawBaseName op method path ≠ "" ∧
        buildTool H fuel glob path method op
          (sanitizeToolName (rawBaseName op method path))
          (chooseName usedX (sanitizeToolName (rawBaseName op method path))) = some t := by
  intro ops
  induction ops with
  | nil =>
    intro used tools h t ht
    cases h
    cases ht
  | cons hd rest ih =>
    rcases hd with ⟨path, method, op⟩
    intro used tools h t ht
    unfold extractAux at h
    by_cases hraw : rawBaseName op method path = ""
    · rw [if_pos hraw] at h
      rcases ih used tools h t ht with ⟨p', m', o', u', hmem, hne, hb⟩
      exact ⟨p', m', o', u', List.mem_cons_of_mem _ hmem, hne, hb⟩
    · rw [if_neg hraw] at h
      cases hb : buildTool H fuel glob path method op
          (sanitizeToolName (rawBaseName op method path))
          (chooseName used (sanitizeToolName (rawBaseName op method path))) with
      | none => rw [hb] at h; cases h
      | some t0 =>
        rw [hb] at h
        cases he : extractAux H fuel glob rest
            (chooseName used (sanitizeToolName (rawBaseName op method path)) :: used) with
        | none => rw [he] at h; cases h
        | some tail =>
          rw [he] at h
          simp only [Option.map_some'] at h
          cases h
          rcases ht with _ | ⟨_, htail⟩
          · exact ⟨path, method, op, used, List.mem_cons_self _ _, hraw, hb⟩
          · rcases ih _ tail he t htail with ⟨p', m', o', u', hmem, hne, hb'⟩
            exact ⟨p', m', o', u', List.mem_cons_of_mem _ hmem, hne, hb'⟩

theorem extractAux_names {H : Nat → OaNode} {fuel : Nat}
    {glob : List (List (String × List String))} :
    ∀ (ops : List (String × String × Operation)) (used : List String)
      (tools : List Tool), extractAux H fuel glob ops used = some tools →
      (∀ t ∈ tools, t.name ∉ used) ∧ (tools.map (fun t => t.name)).Nodup := by
  intro ops
  induction ops with
  | nil =>
    intro used tools h
    cases h
    exact ⟨fun t ht => absurd ht (List.not_mem_nil t), List.nodup_nil⟩
  | cons hd rest ih =>
    rcases hd with ⟨path, method, op⟩
    intro used tools h
    unfold extractAux at h
    by_cases hraw : rawBaseName op method path = ""
    · rw [if_pos hraw] at h
      exact ih used tools h
    · rw [if_neg hraw] at h
      cases hb : buildTool H fuel glob path method op
          (sanitizeToolName (rawBaseName op method path))
          (chooseName used (sanitizeToolName (rawBaseName op method path))) with
      | none => rw [hb] at h; cases h
      | some t0 =>
        rw [hb] at h
        cases he : extractAux H fuel glob rest
            (chooseName used (sanitizeToolName (rawBaseName op method path)) :: used) with
        | none => rw [he] at h; cases h
        | some tail =>
          rw [he] at h
          simp only [Option.map_some'] at h
          cases h
          rcases ih _ tail he with ⟨htail_used, htail_nodup⟩
          have ht0name : t0.name =
              chooseName used (sanitizeToolName (rawBaseName op method path)) :=
            (buildTool_eq hb).1
          constructor
          · intro t ht
            rcases ht with _ | ⟨_, htail⟩
            · rw [ht0name]
              exact chooseName_not_mem used _
            · exact fun hmem =>
                htail_used t htail (List.mem_cons_of_mem _ hmem)
          · rw [List.map_cons]
            refine List.nodup_cons.mpr ⟨?_, htail_nodup⟩
            intro hmem
            rcases List.mem_map.mp hmem with ⟨t, htmem, htname⟩
            have := htail_used t htmem
            rw [htname, ht0name] at this
            exact this (List.mem_cons_self _ _)

/-! ## Claim theorems -/

/-- C1: the claim mandates that a schema node reaching itself through
properties or items edges is translated within a bounded recursion depth,
substituting an unconstrained-object placeholder at the point of re-entry.
The code has no visited set: on the dereferenced self-referential schema of
selfLoopHeap the translation admits no recursion bound at all — it returns
none at every fuel, i.e. the source function never returns. -/
theorem c1_cycle_divergence : ∀ fuel, mapOpenApiSchemaToJsonSchema selfLoopHeap fuel 0 = none := by
  intro fuel
  induction fuel with
  | zero => rfl
  | succ fuel ih =>
    simp only [mapOpenApiSchemaToJsonSchema, selfLoopHeap]
    simp [seqOpt, ih]

/-- C4: the claim says the generated token-acquisition routine reads the
client id and secret from OAUTH_CLIENT_ID and OAUTH_CLIENT_SECRET variables
suffixed with the sanitized scheme name.  In fact the emitted routine reads
the constant names suffixed SCHEMENAME (the template interpolates
getEnvVarName applied to the literal placeholder string at generation
time), which differ from the per-scheme names used by the claim, by the
generated documentation and by the generated availability check, for any
scheme not literally named schemeName. -/
theorem c4_env_var_mismatch :
    acquisitionClientIdEnvVar = "OAUTH_CLIENT_ID_SCHEMENAME" ∧
    acquisitionClientSecretEnvVar = "OAUTH_CLIENT_SECRET_SCHEMENAME" ∧
    getEnvVarName "petstore_auth" "OAUTH_CLIENT_ID" = "OAUTH_CLIENT_ID_PETSTORE_AUTH" ∧
    availabilityClientIdEnvVar "petstore_auth" = "OAUTH_CLIENT_ID_PETSTORE_AUTH" ∧
    acquisitionClientIdEnvVar ≠ getEnvVarName "petstore_auth" "OAUTH_CLIENT_ID" := by
  refine ⟨rfl, rfl, rfl, rfl, ?_⟩
  decide

/-- C5: security resolution returns the first requirement entry, in
declared order, for which every named scheme is available (AND inside an
entry, OR across entries), and returns none when no entry qualifies. -/
theorem c5_first_available_entry :
    ∀ (schemes : List (String × SecScheme)) (env : String → Option String)
      (reqs : List (List (String × List String))),
      (appliedSecurity schemes env reqs = none ↔
        ∀ r ∈ reqs, entryAvailable schemes env r = false) ∧
      (∀ r, appliedSecurity schemes env reqs = some r →
        entryAvailable schemes env r = true ∧
        ∃ pre post, reqs = pre ++ r :: post ∧
          ∀ x ∈ pre, entryAvailable schemes env x = false) ∧
      (∀ pre r post, reqs = pre ++ r :: post →
        (∀ x ∈ pre, entryAvailable schemes env x = false) →
        entryAvailable schemes env r = true →
        appliedSecurity schemes env reqs = some r) := by
  intro schemes env reqs
  refine ⟨?_, ?_, ?_⟩
  · unfold appliedSecurity
    rw [List.find?_eq_none]
    constructor
    · intro h r hr
      have := h r hr
      simp only [Bool.not_eq_true] at this
      exact this
    · intro h r hr
      rw [h r hr]
      simp
  · induction reqs with
    | nil => intro r h; cases h
    | cons hd rest ih =>
      intro r h
      unfold appliedSecurity at h
      rw [List.find?_cons] at h
      by_cases hav : entryAvailable schemes env hd = true
      · simp only [hav] at h
        cases h
        exact ⟨hav, [], rest, rfl, fun x hx => absurd hx (List.not_mem_nil x)⟩
      · have havf : entryAvailable schemes env hd = false := by simpa using hav
        simp only [havf] at h
        rcases ih r h with ⟨h1, pre, post, hsplit, hpre⟩
        refine ⟨h1, hd :: pre, post, by rw [hsplit, List.cons_append], ?_⟩
        intro x hx
        rcases hx with _ | ⟨_, hx⟩
        · simpa using hav
        · exact hpre x hx
  · intro pre
    induction pre generalizing reqs with
    | nil =>
      intro r post hsplit _ hav
      rw [hsplit]
      unfold appliedSecurity
      rw [List.nil_append, List.find?_cons]
      simp only [hav]
    | cons hd hdrest ih =>
      intro r post hsplit hfalse hav
      rw [hsplit]
      unfold appliedSecurity
      rw [List.cons_append, List.find?_cons]
      have hhd : entryAvailable schemes env hd = false :=
        hfalse hd (List.mem_cons_self _ _)
      simp only [hhd]
      have := ih (hdrest ++ r :: post) r post rfl
        (fun x hx => hfalse x (List.mem_cons_of_mem _ hx)) hav
      unfold appliedSecurity at this
      exact this

/-- C2: no two extracted tools share a name; the allocator never returns a
name already in usedNames and each chosen name is registered before the
loop continues, so the produced name list has no duplicates whenever
extraction returns. -/
theorem c2_name_uniqueness :
    ∀ (H : Nat → OaNode) (fuel : Nat) (api : Api) (tools : List Tool),
      extractToolsFromApi H fuel api = some tools →
      (tools.map (fun t => t.name)).Nodup := by
  intro H fuel api tools h
  exact (extractAux_names (opsOfApi api) [] tools h).2

/-- A document with two operations whose identifiers sanitize to the same
base name. -/
def apiTwoPets : Api :=
  { paths := some [("/a", some { get := some (opWithId "listPets") }),
                   ("/b", some { get := some (opWithId "listpets") })],
    security := none }

/-- The tools extracted from apiTwoPets. -/
def toolsTwoPets : List Tool := (extractToolsFromApi emptyHeap 0 apiTwoPets).getD []

theorem c2_name_uniqueness_witness : (toolsTwoPets.map (fun t => t.name)).Nodup :=
  c2_name_uniqueness emptyHeap 0 apiTwoPets toolsTwoPets rfl

/-- A document with two operations carrying the same operationId. -/
def apiDupC3 : Api :=
  { paths := some [("/a", some { get := some (opWithId "listpets") }),
                   ("/b", some { get := some (opWithId "listpets") })],
    security := none }

/-- C3 counterexample: the claim says the second of two colliding
operations receives the suffix with 2.  On a document with two operations
both named listpets the extractor names them listpets and listpets with
suffix 1 — the collision counter is post-incremented from 1, so the first
collision suffix is 1, not 2. -/
theorem c3_counterexample :
    (extractToolsFromApi emptyHeap 0 apiDupC3).map (fun ts => ts.map (fun t => t.name)) =
      some ["listpets", "listpets_1"] ∧
    ("listpets_1" : String) ≠ "listpets_2" := ⟨rfl, by decide⟩

/-- C3 amended: for a document with exactly two operations whose names
sanitize to the same (nonempty raw) base name, the first tool keeps the
sanitized base name and the second receives underscore 1 — collisions are
resolved by appending underscore 1, 2, 3 and so on in first-seen order. -/
theorem c3_amended :
    ∀ (H : Nat → OaNode) (fuel : Nat) (api : Api) (tools : List Tool)
      (p1 m1 p2 m2 sb : String) (op1 op2 : Operation),
      opsOfApi api = [(p1, m1, op1), (p2, m2, op2)] →
      sanitizeToolName (rawBaseName op1 m1 p1) = sb →
      sanitizeToolName (rawBaseName op2 m2 p2) = sb →
      rawBaseName op1 m1 p1 ≠ "" → rawBaseName op2 m2 p2 ≠ "" →
      extractToolsFromApi H fuel api = some tools →
      tools.map (fun t => t.name) = [sb, nameCandidate sb 1] ∧
      natToDec 1 = "1" := by
  intro H fuel api tools p1 m1 p2 m2 sb op1 op2 hops hs1 hs2 hne1 hne2 hx
  refine ⟨?_, rfl⟩
  unfold extractToolsFromApi at hx
  rw [hops] at hx
  unfold extractAux at hx
  rw [if_neg hne1, hs1] at hx
  have hc1 : chooseName [] sb = sb := by
    unfold chooseName
    rw [if_neg (List.not_mem_nil _)]
  rw [hc1] at hx
  cases hbt1 : buildTool H fuel (api.security.getD []) p1 m1 op1 sb sb with
  | none => rw [hbt1] at hx; cases hx
  | some t1 =>
    rw [hbt1] at hx
    unfold extractAux at hx
    rw [if_neg hne2, hs2] at hx
    have hnot : nameCandidate sb 1 ∉ [sb] := by
      rw [List.mem_singleton]
      exact nameCandidate_ne_base _ _
    have hc2 : chooseName [sb] sb = nameCandidate sb 1 := by
      unfold chooseName
      rw [if_pos (List.mem_singleton_self _)]
      show chooseNameAux [sb] sb 2 1 = _
      unfold chooseNameAux
      rw [if_neg hnot]
    rw [hc2] at hx
    cases hbt2 : buildTool H fuel (api.security.getD []) p2 m2 op2
        sb (nameCandidate sb 1) with
    | none => rw [hbt2] at hx; cases hx
    | some t2 =>
      rw [hbt2] at hx
      unfold extractAux at hx
      simp only [Option.map_some'] at hx
      cases hx
      rw [List.map_cons, List.map_cons, List.map_nil,
        (buildTool_eq hbt1).1, (buildTool_eq hbt2).1]

/-- A document whose two operations collide only after sanitization: the
declared identifiers listPets and listpets both sanitize to listpets. -/
def apiMixedCaseC3 : Api :=
  { paths := some [("/a", some { get := some (opWithId "listPets") }),
                   ("/b", some { get := some (opWithId "listpets") })],
    security := none }

theorem c3_amended_witness :
    ((extractToolsFromApi emptyHeap 0 apiMixedCaseC3).getD []).map (fun t => t.name) =
      ["listpets", nameCandidate "listpets" 1] ∧
    natToDec 1 = "1" :=
  c3_amended emptyHeap 0 apiMixedCaseC3
    ((extractToolsFromApi emptyHeap 0 apiMixedCaseC3).getD [])
    "/a" "get" "/b" "get" "listpets" (opWithId "listPets") (opWithId "listpets")
    rfl (by decide) (by decide) (by decide) (by decide) rfl

/-- C6: an operation with an explicitly empty security list yields no
security requirements (overriding the global declaration); a declared
non-empty list is used as-is; an absent security field inherits the
document's global security.  Each tool's securityRequirements is computed
from its own operation's security field and the global security only, so a
sibling operation's override cannot affect it. -/
theorem c6_security_override :
    (∀ glob, securityRequirementsOf SecurityDecl.undef glob = glob) ∧
    (∀ glob, securityRequirementsOf (SecurityDecl.decl []) glob = []) ∧
    (∀ glob l, securityRequirementsOf (SecurityDecl.decl l) glob = l) ∧
    (∀ (H : Nat → OaNode) (fuel : Nat) (api : Api) (tools : List Tool) (t : Tool),
      extractToolsFromApi H fuel api = some tools → t ∈ tools →
      ∃ path method op, (path, method, op) ∈ opsOfApi api ∧
        t.securityRequirements =
          securityRequirementsOf op.security (api.security.getD [])) := by
  refine ⟨fun _ => rfl, fun _ => rfl, fun _ _ => rfl, ?_⟩
  intro H fuel api tools t h ht
  rcases extractAux_mem (opsOfApi api) [] tools h t ht with ⟨p, m, op, u, hmem, hne, hbt⟩
  exact ⟨p, m, op, hmem, (buildTool_eq hbt).2.2.1⟩

/-- An operation that declares an explicitly empty security list. -/
def opEmptySec : Operation :=
  { operationId := some "op1", summary := none, descr := none,
    parameters := none, requestBody := none, security := SecurityDecl.decl [] }

/-- A document with a non-empty global security declaration and one
operation overriding it with an empty list. -/
def apiEmptySec : Api :=
  { paths := some [("/a", some { get := some opEmptySec })],
    security := some [[("A", [])]] }

/-- The tools extracted from apiEmptySec. -/
def toolsEmptySec : List Tool := (extractToolsFromApi emptyHeap 0 apiEmptySec).getD []

/-- A tool value used only as the default of list projections. -/
def defaultTool : Tool :=
  { name := "", description := "",
    inputSchema := { properties := [], required := none },
    method := "", pathTemplate := "", parameters := [], executionParameters := [],
    requestBodyContentType := none, securityRequirements := [], operationId := "" }

theorem c6_security_override_witness :
    ∃ path method op, (path, method, op) ∈ opsOfApi apiEmptySec ∧
      (toolsEmptySec.headD defaultTool).securityRequirements =
        securityRequirementsOf op.security (apiEmptySec.security.getD []) :=
  c6_security_override.2.2.2 emptyHeap 0 apiEmptySec toolsEmptySec
    (toolsEmptySec.headD defaultTool) rfl
    (by rw [show toolsEmptySec = [toolsEmptySec.headD defaultTool] from rfl]
        exact List.mem_singleton_self _)

/-- C10: every extracted tool's operationId field holds the sanitized base
name derived from its operation (the declared operationId if truthy, else
the synthesized method-and-path identifier, sanitized), and the tool name
is that operationId itself or the operationId with a collision counter
suffix; the sanitization lower-cases and replaces dots, so a declared
operationId with upper-case letters or dots differs from the stored
field. -/
theorem c10_operation_id :
    (∀ (H : Nat → OaNode) (fuel : Nat) (api : Api) (tools : List Tool) (t : Tool),
      extractToolsFromApi H fuel api = some tools → t ∈ tools →
      ∃ path method op, (path, method, op) ∈ opsOfApi api ∧
        t.operationId = sanitizeToolName (rawBaseName op method path) ∧
        (t.name = t.operationId ∨ ∃ c, t.name = nameCandidate t.operationId c)) ∧
    sanitizeToolName "getUser.ByID" = "getuser_byid" ∧
    ("getuser_byid" : String) ≠ "getUser.ByID" := by
  refine ⟨?_, by decide, by decide⟩
  intro H fuel api tools t h ht
  rcases extractAux_mem (opsOfApi api) [] tools h t ht with ⟨p, m, op, u, hmem, hne, hbt⟩
  rcases buildTool_eq hbt with ⟨hname, hopid, _⟩
  refine ⟨p, m, op, hmem, hopid, ?_⟩
  rw [hname, hopid]
  exact chooseName_shape u (sanitizeToolName (rawBaseName op m p))

/-- A document whose single operation declares an operationId with a dot
and upper-case letters. -/
def apiDotId : Api :=
  { paths := some [("/u", some { get := some (opWithId "getUser.ByID") })],
    security := none }

/-- The tools extracted from apiDotId. -/
def toolsDotId : List Tool := (extractToolsFromApi emptyHeap 0 apiDotId).getD []

theorem c10_operation_id_witness :
    ∃ path method op, (path, method, op) ∈ opsOfApi apiDotId ∧
      (toolsDotId.headD defaultTool).operationId =
        sanitizeToolName (rawBaseName op method path) ∧
      ((toolsDotId.headD defaultTool).name = (toolsDotId.headD defaultTool).operationId ∨
        ∃ c, (toolsDotId.headD defaultTool).name =
          nameCandidate ((toolsDotId.headD defaultTool).operationId) c) :=
  c10_operation_id.1 emptyHeap 0 apiDotId toolsDotId (toolsDotId.headD defaultTool) rfl
    (by rw [show toolsDotId = [toolsDotId.headD defaultTool] from rfl]
        exact List.mem_singleton_self _)

/-- A scheme table with two API-key schemes named A and B. -/
def schemesAB : List (String × SecScheme) :=
  [("A", SecScheme.apiKey "X-Key" "header"), ("B", SecScheme.apiKey "X-Key" "header")]

/-- A credential snapshot where only scheme B's API key is set. -/
def envOnlyB : String → Option String :=
  fun n => if n = "API_KEY_B" then some "secret" else none

theorem c5_first_available_entry_witness :
    appliedSecurity schemesAB envOnlyB [[("A", [])], [("B", [])]] = some [("B", [])] :=
  (c5_first_available_entry schemesAB envOnlyB [[("A", [])], [("B", [])]]).2.2
    [[("A", [])]] [("B", [])] [] rfl (by decide) (by decide)

/-- C9: for every schema node marked nullable, the translated type folds
null in: a declared type array gets null appended when absent, a single
scalar name becomes the two-element set of the (integer-normalized) name
and null, and an absent type becomes exactly null; the node's properties
and items are copied untranslated because the folded type is never the
plain object or array string. -/
theorem c9_nullable_folding :
    ∀ (H : Nat → OaNode) (id fuel : Nat) (typ : TypeField)
      (props : Option (List (String × Nat))) (items : Option Nat)
      (descr : Option String),
      H id = OaNode.node typ true props items descr →
      mapOpenApiSchemaToJsonSchema H (fuel + 1) id =
        some (JsonOut.obj
          (match typ with
           | TypeField.undef => TypeField.single "null"
           | TypeField.single s =>
             TypeField.multi [if s = "integer" then "number" else s, "null"]
           | TypeField.multi l =>
             TypeField.multi (if "null" ∈ l then l else l ++ ["null"]))
          (props.map (fun l => l.map fun kp => (kp.1, JsonOut.raw kp.2)))
          (items.map JsonOut.raw) descr) := by
  intro H id fuel typ props items descr h
  cases typ with
  | undef =>
    cases props <;> cases items <;>
      simp [mapOpenApiSchemaToJsonSchema, h]
  | single s =>
    by_cases hs : s = "integer" <;>
      cases props <;> cases items <;>
        simp [mapOpenApiSchemaToJsonSchema, h, hs]
  | multi l =>
    cases props <;> cases items <;>
      simp [mapOpenApiSchemaToJsonSchema, h]

/-- A heap whose every node is a nullable string schema. -/
def nullableStringHeap : Nat → OaNode :=
  fun _ => OaNode.node (TypeField.single "string") true none none none

theorem c9_nullable_folding_witness :
    mapOpenApiSchemaToJsonSchema nullableStringHeap 1 0 =
      some (JsonOut.obj (TypeField.multi ["string", "null"]) none none none) :=
  c9_nullable_folding nullableStringHeap 0 0 (TypeField.single "string") none none none rfl

/-- The fetch phase succeeds through the client-credentials flow: one
request is issued and the token is cached with the sixty-second safety
margin. -/
theorem acquireFetch_success
    {fetch : String → Option TokenResponse} {pw : Option OAuthFlowInfo}
    {cache : List (String × TokenCacheEntry)} {cacheKey url : String}
    {now : Int} {resp : TokenResponse}
    (hurl : url ≠ "") (hfetch : fetch url = some resp)
    (htok : truthyS resp.access_token = true) :
    acquireOAuth2TokenFetch fetch
      (some { clientCredentials := some { tokenUrl := some url }, password := pw })
      cache cacheKey now =
      { token := some (resp.access_token.getD ""),
        cache := objInsert cache cacheKey
          { token := resp.access_token.getD "",
            expiresAt := now + expiresInVal resp * 1000 - 60000 },
        requested := true } := by
  have htu : truthyS (some url) = true := by
    simp [truthyS, hurl]
  simp [acquireOAuth2TokenFetch, Option.bind, htu, hfetch, htok]

/-- C7: with client credentials configured and a client-credentials flow
declared, a call with no cached entry for the scheme-and-client key issues
one token request and caches the token with expiry now plus expires-in
times 1000 milliseconds minus the 60000 millisecond margin; a call finding
an unexpired cached entry returns it without a request and leaves the cache
unchanged; a call finding an expired entry issues a new request; a response
without expires-in defaults to 3600 seconds, so the default expiry is now
plus 3540000 milliseconds, i.e. 3540 seconds. -/
theorem c7_token_cache :
    ∀ (env : String → Option String) (fetch : String → Option TokenResponse)
      (schemeName url : String) (pw : Option OAuthFlowInfo)
      (cache : List (String × TokenCacheEntry)) (now : Int) (resp : TokenResponse),
      truthyS (env acquisitionClientIdEnvVar) = true →
      truthyS (env acquisitionClientSecretEnvVar) = true →
      url ≠ "" →
      fetch url = some resp →
      truthyS resp.access_token = true →
      ((assocLookup cache (schemeName ++ "_" ++ (env acquisitionClientIdEnvVar).getD "") =
          none →
        acquireOAuth2Token env fetch schemeName
            (some { clientCredentials := some { tokenUrl := some url }, password := pw })
            cache now =
          { token := some (resp.access_token.getD ""),
            cache := objInsert cache
              (schemeName ++ "_" ++ (env acquisitionClientIdEnvVar).getD "")
              { token := resp.access_token.getD "",
                expiresAt := now + expiresInVal resp * 1000 - 60000 },
            requested := true }) ∧
      (∀ entry,
        assocLookup cache (schemeName ++ "_" ++ (env acquisitionClientIdEnvVar).getD "") =
          some entry →
        entry.expiresAt > now →
        acquireOAuth2Token env fetch schemeName
            (some { clientCredentials := some { tokenUrl := some url }, password := pw })
            cache now =
          { token := some entry.token, cache := cache, requested := false }) ∧
      (∀ entry,
        assocLookup cache (schemeName ++ "_" ++ (env acquisitionClientIdEnvVar).getD "") =
          some entry →
        ¬ entry.expiresAt > now →
        acquireOAuth2Token env fetch schemeName
            (some { clientCredentials := some { tokenUrl := some url }, password := pw })
            cache now =
          { token := some (resp.access_token.getD ""),
            cache := objInsert cache
              (schemeName ++ "_" ++ (env acquisitionClientIdEnvVar).getD "")
              { token := resp.access_token.getD "",
                expiresAt := now + expiresInVal resp * 1000 - 60000 },
            requested := true }) ∧
      (∀ a, expiresInVal { access_token := a, expires_in := none } = 3600) ∧
      (now + 3600 * 1000 - 60000 = now + 3540000)) := by
  intro env fetch schemeName url pw cache now resp h1 h2 hurl hfetch htok
  refine ⟨?_, ?_, ?_, fun a => rfl, by omega⟩
  · intro hcache
    unfold acquireOAuth2Token
    rw [if_neg (by simp [h1, h2])]
    rw [hcache]
    exact acquireFetch_success hurl hfetch htok
  · intro entry hcache hfresh
    unfold acquireOAuth2Token
    rw [if_neg (by simp [h1, h2])]
    simp only [hcache]
    rw [if_pos hfresh]
  · intro entry hcache hstale
    unfold acquireOAuth2Token
    rw [if_neg (by simp [h1, h2])]
    simp only [hcache]
    rw [if_neg hstale]
    exact acquireFetch_success hurl hfetch htok

/-- A credential snapshot that sets the constant-named client id and
secret the emitted routine reads. -/
def envC7 : String → Option String :=
  fun n =>
    if n = acquisitionClientIdEnvVar then some "id"
    else if n = acquisitionClientSecretEnvVar then some "sec" else none

/-- A token endpoint that always returns token T1 with no expires-in. -/
def fetchC7 : String → Option TokenResponse :=
  fun _ => some { access_token := some "T1", expires_in := none }

theorem c7_token_cache_witness :
    acquireOAuth2Token envC7 fetchC7 "S"
        (some { clientCredentials := some { tokenUrl := some "u" }, password := none })
        [] 1000 =
      { token := some "T1",
        cache := [("S_id", { token := "T1", expiresAt := 3541000 })],
        requested := true } := by
  have h := (c7_token_cache envC7 fetchC7 "S" "u" none [] 1000
      { access_token := some "T1", expires_in := none }
      rfl rfl (by decide) rfl rfl).1 rfl
  exact h

/-! ## Lemmas about property-object keys -/

theorem keys_objInsert_mem {α : Type} (l : List (String × α)) (k k' : String) (v : α) :
    (k' ∈ (objInsert l k v).map Prod.fst) ↔ (k' ∈ l.map Prod.fst ∨ k' = k) := by
  induction l with
  | nil => simp [objInsert]
  | cons hd rest ih =>
    by_cases hk : hd.1 = k
    · simp only [objInsert, if_pos hk, List.map_cons, List.mem_cons]
      rw [← hk]
      tauto
    · simp only [objInsert, if_neg hk, List.map_cons, List.mem_cons, ih]
      tauto

theorem keys_objInsert_nodup {α : Type} (l : List (String × α)) (k : String) (v : α)
    (h : (l.map Prod.fst).Nodup) : ((objInsert l k v).map Prod.fst).Nodup := by
  induction l with
  | nil => simp [objInsert]
  | cons hd rest ih =>
    rw [List.map_cons, List.nodup_cons] at h
    rcases h with ⟨hnotin, hrest⟩
    by_cases hk : hd.1 = k
    · simp only [objInsert, if_pos hk, List.map_cons]
      exact List.nodup_cons.mpr ⟨hk ▸ hnotin, hrest⟩
    · simp only [objInsert, if_neg hk, List.map_cons]
      refine List.nodup_cons.mpr ⟨?_, ih hrest⟩
      intro hmem
      rcases (keys_objInsert_mem rest k hd.1 v).mp hmem with hin | heq
      · exact hnotin hin
      · exact hk heq

theorem processParams_keys {H : Nat → OaNode} {fuel : Nat} :
    ∀ (ps : List Param) (props : List (String × JsonOut)) (req : List String)
      (props2 : List (String × JsonOut)) (req2 : List String),
      processParams H fuel ps props req = some (props2, req2) →
      (∀ p ∈ ps, p.name ≠ "" ∧ p.schema ≠ none) →
      ((props.map Prod.fst).Nodup → (props2.map Prod.fst).Nodup) ∧
      (∀ k, k ∈ props2.map Prod.fst ↔
        (k ∈ props.map Prod.fst ∨ ∃ p ∈ ps, p.name = k)) := by
  intro ps
  induction ps with
  | nil =>
    intro props req props2 req2 h hwf
    cases h
    exact ⟨id, by simp⟩
  | cons param rest ih =>
    intro props req props2 req2 h hwf
    have hp := hwf param (List.mem_cons_self _ _)
    unfold processParams at h
    rw [if_neg (not_or.mpr ⟨hp.1, hp.2⟩)] at h
    cases hsch : param.schema with
    | none => exact absurd hsch hp.2
    | some sid =>
      simp only [hsch] at h
      cases hmap : mapOpenApiSchemaToJsonSchema H fuel sid with
      | none => simp only [hmap] at h; cases h
      | some ps' =>
        simp only [hmap] at h
        rcases ih _ _ _ _ h (fun p hp' => hwf p (List.mem_cons_of_mem _ hp')) with
          ⟨hnd, hiff⟩
        constructor
        · intro hpnd
          exact hnd (keys_objInsert_nodup _ _ _ hpnd)
        · intro k
          rw [hiff k, keys_objInsert_mem]
          constructor
          · rintro ((hk | hk) | ⟨p, hpmem, hpname⟩)
            · exact Or.inl hk
            · exact Or.inr ⟨param, List.mem_cons_self _ _, hk.symm⟩
            · exact Or.inr ⟨p, List.mem_cons_of_mem _ hpmem, hpname⟩
          · rintro (hk | ⟨p, hpmem, hpname⟩)
            · exact Or.inl (Or.inl hk)
            · rcases List.mem_cons.mp hpmem with heq | hpmem'
              · subst heq
                exact Or.inl (Or.inr hpname.symm)
              · exact Or.inr ⟨p, hpmem', hpname⟩

theorem generateInputSchema_params {H : Nat → OaNode} {fuel : Nat} {op : Operation}
    {res : GenResult} (hg : generateInputSchemaAndDetails H fuel op = some res) :
    res.parameters = op.parameters.getD [] := by
  unfold generateInputSchemaAndDetails at hg
  cases hpp : processParams H fuel (op.parameters.getD []) [] [] with
  | none => simp only [hpp] at hg; cases hg
  | some pr =>
    obtain ⟨props1, req1⟩ := pr
    simp only [hpp] at hg
    cases hrb : op.requestBody with
    | none =>
      simp only [hrb] at hg
      cases hg
      rfl
    | some rb =>
      simp only [hrb] at hg
      cases hjc : assocLookup rb.content "application/json" with
      | none =>
        simp only [hjc] at hg
        cases hhd : rb.content.head? with
        | none => simp only [hhd] at hg; cases hg; rfl
        | some ct => simp only [hhd] at hg; cases hg; rfl
      | some sch =>
        cases sch with
        | none =>
          simp only [hjc] at hg
          cases hhd : rb.content.head? with
          | none => simp only [hhd] at hg; cases hg; rfl
          | some ct => simp only [hhd] at hg; cases hg; rfl
        | some sid =>
          simp only [hjc] at hg
          cases hmap : mapOpenApiSchemaToJsonSchema H fuel sid with
          | none => simp only [hmap] at hg; cases hg
          | some bs => simp only [hmap] at hg; cases hg; rfl

theorem generateInputSchema_keys {H : Nat → OaNode} {fuel : Nat} {op : Operation}
    {res : GenResult} (hg : generateInputSchemaAndDetails H fuel op = some res)
    (hwf : ∀ p ∈ op.parameters.getD [],
      p.name ≠ "" ∧ p.schema ≠ none ∧ p.name ≠ "requestBody") :
    (res.inputSchema.properties.map Prod.fst).Nodup ∧
    (∀ p ∈ op.parameters.getD [],
      p.name ∈ res.inputSchema.properties.map Prod.fst) ∧
    (∀ k ∈ res.inputSchema.properties.map Prod.fst,
      k = "requestBody" ∨ ∃ p ∈ op.parameters.getD [], p.name = k) := by
  unfold generateInputSchemaAndDetails at hg
  cases hpp : processParams H fuel (op.parameters.getD []) [] [] with
  | none => simp only [hpp] at hg; cases hg
  | some pr =>
    obtain ⟨props1, req1⟩ := pr
    simp only [hpp] at hg
    rcases processParams_keys _ _ _ _ _ hpp
        (fun p hp => ⟨(hwf p hp).1, (hwf p hp).2.1⟩) with ⟨hnd1, hiff1⟩
    have hprops1nd : (props1.map Prod.fst).Nodup := hnd1 (by simp)
    have hmem1 : ∀ p ∈ op.parameters.getD [], p.name ∈ props1.map Prod.fst :=
      fun p hp => (hiff1 p.name).mpr (Or.inr ⟨p, hp, rfl⟩)
    have hback1 : ∀ k ∈ props1.map Prod.fst, ∃ p ∈ op.parameters.getD [], p.name = k := by
      intro k hk
      rcases (hiff1 k).mp hk with hnil | hex
      · cases hnil
      · exact hex
    have hplain : (props1.map Prod.fst).Nodup ∧
        (∀ p ∈ op.parameters.getD [], p.name ∈ props1.map Prod.fst) ∧
        (∀ k ∈ props1.map Prod.fst,
          k = "requestBody" ∨ ∃ p ∈ op.parameters.getD [], p.name = k) :=
      ⟨hprops1nd, hmem1, fun k hk => Or.inr (hback1 k hk)⟩
    have hinserted : ∀ x : JsonOut,
        ((objInsert props1 "requestBody" x).map Prod.fst).Nodup ∧
        (∀ p ∈ op.parameters.getD [],
          p.name ∈ (objInsert props1 "requestBody" x).map Prod.fst) ∧
        (∀ k ∈ (objInsert props1 "requestBody" x).map Prod.fst,
          k = "requestBody" ∨ ∃ p ∈ op.parameters.getD [], p.name = k) := by
      intro x
      refine ⟨keys_objInsert_nodup _ _ _ hprops1nd, ?_, ?_⟩
      · intro p hp
        exact (keys_objInsert_mem _ _ _ _).mpr (Or.inl (hmem1 p hp))
      · intro k hk
        rcases (keys_objInsert_mem _ _ _ _).mp hk with hin | heq
        · exact Or.inr (hback1 k hin)
        · exact Or.inl heq
    cases hrb : op.requestBody with
    | none =>
      simp only [hrb] at hg
      cases hg
      exact hplain
    | some rb =>
      simp only [hrb] at hg
      cases hjc : assocLookup rb.content "application/json" with
      | none =>
        simp only [hjc] at hg
        cases hhd : rb.content.head? with
        | none => simp only [hhd] at hg; cases hg; exact hplain
        | some ct => simp only [hhd] at hg; cases hg; exact hinserted _
      | some sch =>
        cases sch with
        | none =>
          simp only [hjc] at hg
          cases hhd : rb.content.head? with
          | none => simp only [hhd] at hg; cases hg; exact hplain
          | some ct => simp only [hhd] at hg; cases hg; exact hinserted _
        | some sid =>
          simp only [hjc] at hg
          cases hmap : mapOpenApiSchemaToJsonSchema H fuel sid with
          | none => simp only [hmap] at hg; cases hg
          | some bs => simp only [hmap] at hg; cases hg; exact hinserted _

/-- C8 amended: for tools all of whose parameters declare a nonempty name
and a schema and none of which is named requestBody, every
execution-parameter entry corresponds to exactly one input-schema property
of the same name, every property other than the synthetic requestBody
property has an execution-parameter entry, and no execution-parameter entry
is named requestBody (so the requestBody property, when present, is the
only one without an entry).  The restriction is forced: a parameter without
a schema is kept in the execution-parameter list but contributes no
property. -/
theorem c8_exec_params_amended :
    ∀ (H : Nat → OaNode) (fuel : Nat) (api : Api) (tools : List Tool) (t : Tool),
      extractToolsFromApi H fuel api = some tools → t ∈ tools →
      (∀ p ∈ t.parameters, p.name ≠ "" ∧ p.schema ≠ none ∧ p.name ≠ "requestBody") →
      (∀ e ∈ t.executionParameters,
        (t.inputSchema.properties.map Prod.fst).count e.1 = 1) ∧
      (∀ k ∈ t.inputSchema.properties.map Prod.fst, k ≠ "requestBody" →
        ∃ e ∈ t.executionParameters, e.1 = k) ∧
      (∀ e ∈ t.executionParameters, e.1 ≠ "requestBody") := by
  intro H fuel api tools t h ht hwf
  rcases extractAux_mem (opsOfApi api) [] tools h t ht with ⟨p, m, op, u, hmem, hne, hbt⟩
  rcases buildTool_eq hbt with ⟨-, -, -, r, hgen, hpar, hexec, hschema⟩
  have hparams : r.parameters = op.parameters.getD [] := generateInputSchema_params hgen
  have hwf' : ∀ q ∈ op.parameters.getD [],
      q.name ≠ "" ∧ q.schema ≠ none ∧ q.name ≠ "requestBody" := by
    intro q hq
    apply hwf
    rw [hpar, hparams]
    exact hq
  rcases generateInputSchema_keys hgen hwf' with ⟨hnd, hmemk, hbackk⟩
  rw [hschema]
  refine ⟨?_, ?_, ?_⟩
  · intro e he
    rw [hexec] at he
    rcases List.mem_map.mp he with ⟨q, hq, hqe⟩
    have hqin : q.name ∈ r.inputSchema.properties.map Prod.fst :=
      hmemk q (hparams ▸ hq)
    have hle := List.nodup_iff_count_le_one.mp hnd e.1
    have hpos : 0 < (r.inputSchema.properties.map Prod.fst).count e.1 := by
      rw [← hqe]
      exact List.count_pos_iff.mpr hqin
    omega
  · intro k hk hkrb
    rcases hbackk k hk with heq | ⟨q, hq, hqname⟩
    · exact absurd heq hkrb
    · refine ⟨(q.name, q.inLoc), ?_, hqname⟩
      rw [hexec]
      exact List.mem_map.mpr ⟨q, hparams ▸ hq, rfl⟩
  · intro e he
    rw [hexec] at he
    rcases List.mem_map.mp he with ⟨q, hq, hqe⟩
    rw [← hqe]
    exact (hwf' q (hparams ▸ hq)).2.2

/-- An operation with one parameter that declares no schema. -/
def opNoSchemaParam : Operation :=
  { operationId := some "getx", summary := none, descr := none,
    parameters := some
      [{ name := "a", inLoc := "query", required := false, descr := none, schema := none }],
    requestBody := none, security := SecurityDecl.undef }

/-- A document containing only opNoSchemaParam. -/
def apiNoSchemaParam : Api :=
  { paths := some [("/x", some { get := some opNoSchemaParam })], security := none }

/-- C8 counterexample: the claim says every execution-parameter entry
corresponds to exactly one input-schema property of the same name.  For an
operation with a parameter that declares no schema, the entry named a is in
the execution-parameter list while the input schema has no properties at
all. -/
theorem c8_counterexample :
    (extractToolsFromApi emptyHeap 0 apiNoSchemaParam).map
        (fun ts => ts.map fun t =>
          (t.executionParameters, t.inputSchema.properties.map Prod.fst)) =
      some [([("a", "query")], [])] ∧
    ¬ (∀ ts, extractToolsFromApi emptyHeap 0 apiNoSchemaParam = some ts →
        ∀ t ∈ ts, ∀ e ∈ t.executionParameters,
          (t.inputSchema.properties.map Prod.fst).count e.1 = 1) := by
  refine ⟨rfl, ?_⟩
  intro hall
  have h1 := hall ((extractToolsFromApi emptyHeap 0 apiNoSchemaParam).getD []) rfl
  have h2 := h1 (((extractToolsFromApi emptyHeap 0 apiNoSchemaParam).getD []).headD defaultTool)
    (by rw [show (extractToolsFromApi emptyHeap 0 apiNoSchemaParam).getD [] =
          [((extractToolsFromApi emptyHeap 0 apiNoSchemaParam).getD []).headD defaultTool]
        from rfl]
        exact List.mem_singleton_self _)
  have h3 := h2 ("a", "query")
    (by rw [show (((extractToolsFromApi emptyHeap 0 apiNoSchemaParam).getD []).headD
            defaultTool).executionParameters = [("a", "query")] from rfl]
        exact List.mem_singleton_self _)
  exact absurd h3 (by decide)

/-- An operation with one well-formed string parameter. -/
def opOneParam : Operation :=
  { operationId := some "withparam", summary := none, descr := none,
    parameters := some
      [{ name := "p1", inLoc := "query", required := true, descr := none, schema := some 0 }],
    requestBody := none, security := SecurityDecl.undef }

/-- A heap whose every node is a plain string schema. -/
def stringHeap : Nat → OaNode :=
  fun _ => OaNode.node (TypeField.single "string") false none none none

/-- A document containing only opOneParam. -/
def apiOneParam : Api :=
  { paths := some [("/w", some { get := some opOneParam })], security := none }

/-- The tools extracted from apiOneParam. -/
def toolsOneParam : List Tool := (extractToolsFromApi stringHeap 1 apiOneParam).getD []

theorem c8_exec_params_amended_witness :
    (∀ e ∈ (toolsOneParam.headD defaultTool).executionParameters,
      ((toolsOneParam.headD defaultTool).inputSchema.properties.map Prod.fst).count e.1 = 1) ∧
    (∀ k ∈ (toolsOneParam.headD defaultTool).inputSchema.properties.map Prod.fst,
      k ≠ "requestBody" →
      ∃ e ∈ (toolsOneParam.headD defaultTool).executionParameters, e.1 = k) ∧
    (∀ e ∈ (toolsOneParam.headD defaultTool).executionParameters, e.1 ≠ "requestBody") :=
  c8_exec_params_amended stringHeap 1 apiOneParam toolsOneParam
    (toolsOneParam.headD defaultTool) rfl
    (by rw [show toolsOneParam = [toolsOneParam.headD defaultTool] from rfl]
        exact List.mem_singleton_self _)
    (by decide)
